import Mathlib

/-!
Verification of the repodata acquisition and caching core of the `conda`
fork under study, a shallow embedding of `conda/core/subdir_data.py` and
`conda/gateways/repodata/jlapper.py` in Lean 4.  Python dicts become
association lists or update functions, in-place mutation becomes explicit
state passing, raised exceptions become `Except` values, and library
collaborators (sha256, jsonpatch, the HTTP session) become function
parameters.  Strings manipulated character-wise in the source are modelled
as `List Char`.
-/

namespace Conda

/-! ## Patch planner and applier, jlapper.py -/

/-- A decoded JLAP patch record with fields from, to and patch.  The
JSON-Patch payload is opaque to the planner, so its type is a parameter. -/
structure Patch (α : Type) where
  fromHash : String
  toHash : String
  ops : α
deriving DecidableEq, Repr

/-- The reversed-traversal loop of jlapper.find_patches: walk the patch
list, break once the desired hash equals the local one, collect every patch
whose to-hash equals the desired hash, and thread the desired hash through.
Returns the collected plan and the final desired hash. -/
def collectPatches {α : Type} : List (Patch α) → String → String → List (Patch α) × String
  | [], _, want => ([], want)
  | p :: rest, haveHash, want =>
    if haveHash = want then ([], want)
    else if p.toHash = want then
      let r := collectPatches rest haveHash p.fromHash
      (p :: r.1, r.2)
    else collectPatches rest haveHash want

/-- jlapper.find_patches: iterate the patch list in reverse collecting a
plan from want back towards haveHash; raise LookupError "patch not found"
when the traversal ends elsewhere than haveHash. -/
def find_patches {α : Type} (patches : List (Patch α)) (haveHash want : String) :
    Except String (List (Patch α)) :=
  let r := collectPatches patches.reverse haveHash want
  if haveHash ≠ r.2 then Except.error "patch not found" else Except.ok r.1

/-- jlapper.apply_patches: pop patches off the end of the plan and apply
each to the document.  The jsonpatch library is the parameter applyOne. -/
def apply_patches {α Doc : Type} (applyOne : Doc → Patch α → Doc)
    (data : Doc) (plan : List (Patch α)) : Doc :=
  plan.reverse.foldl applyOne data

/-- A plan is a hash chain from want (the to-hash of the head) back to haveHash
(the from-hash of the last element); the empty plan requires want = haveHash. -/
def isChain {α : Type} : List (Patch α) → String → String → Prop
  | [], want, haveHash => want = haveHash
  | p :: rest, want, haveHash => p.toHash = want ∧ isChain rest p.fromHash haveHash

/-! ## Cache key derivation, subdir_data.py -/

/-- REPODATA_FN, the default repodata filename. -/
def REPODATA_FN : List Char := "repodata.json".data

/-- One symbol of the base32-hex alphabet used by base64.b32hexencode. -/
def b32hexDigit (n : Nat) : Char := "0123456789ABCDEFGHIJKLMNOPQRSTUV".data.getD n '?'

/-- base64.b32hexencode restricted to a 5-byte group: 40 bits become 8
alphabet symbols with no padding. -/
def b32hexencode5 : List Nat → List Char
  | [a, b, c, d, e] =>
    let n := ((((a * 256 + b) * 256 + c) * 256 + d) * 256 + e)
    (List.range 8).map fun i => b32hexDigit (n / 32 ^ (7 - i) % 32)
  | _ => []

/-- subdir_data.cache_fn_url: right-pad the url with a slash, append the
repodata filename only when it is not the default, sha256 the result, keep
the first five digest bytes, base32-hex encode them and append ".json".
The sha256 collaborator from hashlib is a parameter. -/
def cache_fn_url (sha256 : List Char → List Nat) (url repodata_fn : List Char) : List Char :=
  let url1 := if url.getLast? = some '/' then url else url ++ ['/']
  let url2 := if repodata_fn ≠ REPODATA_FN then url1 ++ repodata_fn else url1
  b32hexencode5 ((sha256 url2).take 5) ++ ".json".data

/-! ## Cache staleness, SubdirData._load and get_cache_control_max_age -/

/-- Numeric value of a run of ASCII digits, as Python int() of the digit
string. -/
def digitsVal (l : List Char) : Nat := l.foldl (fun a c => a * 10 + (c.toNat - 48)) 0

/-- The regex search re.search("max-age=(\\d+)", s): the leftmost position
where the literal "max-age=" is followed by at least one digit wins, and
the greedy digit run there is the captured group. -/
def maxAgeSearch : List Char → Option Nat
  | [] => none
  | c :: rest =>
    if "max-age=".data.isPrefixOf (c :: rest) ∧
        ((c :: rest).drop 8).takeWhile Char.isDigit ≠ [] then
      some (digitsVal (((c :: rest).drop 8).takeWhile Char.isDigit))
    else maxAgeSearch rest

/-- subdir_data.get_cache_control_max_age: the captured max-age value, or 0
when the header has no match. -/
def get_cache_control_max_age (cacheControlValue : List Char) : Nat :=
  (maxAgeSearch cacheControlValue).getD 0

/-- The max_age ladder of SubdirData._load: local_repodata_ttl when above
1, the parsed Cache-Control max-age when exactly 1, otherwise 0. -/
def loadMaxAge (localRepodataTtl : Int) (cacheControl : List Char) : Int :=
  if localRepodataTtl > 1 then localRepodataTtl
  else if localRepodataTtl = 1 then (get_cache_control_max_age cacheControl : Int)
  else 0

/-- The cached-repodata decision of SubdirData._load: timeout is
mtime + max_age - time(), and the cache is read back (no fetch) when the
timeout is positive or offline mode is on, except for file:// channels. -/
def usesCachedRepodata (now mtime localRepodataTtl : Int) (cacheControl : List Char)
    (offline isFileUrl : Bool) : Bool :=
  (decide (mtime + loadMaxAge localRepodataTtl cacheControl - now > 0) || offline) && !isFileUrl

/-- The three ways SubdirData._load can proceed. -/
inductive LoadPath
  | emptyRepodata
  | readCached
  | fetchRemote
deriving DecidableEq, Repr

/-- Branch structure of SubdirData._load: with no cached JSON, use_index_cache
or offline non-file channels get empty repodata and everything else fetches;
with a cached JSON, use_index_cache reads it back, a live timeout (or offline)
on a non-file channel reads it back, and otherwise the repo is fetched. -/
def loadPath (jsonExists useIndexCache : Bool) (now mtime localRepodataTtl : Int)
    (cacheControl : List Char) (offline isFileUrl : Bool) : LoadPath :=
  if !jsonExists then
    if useIndexCache || (offline && !isFileUrl) then .emptyRepodata else .fetchRemote
  else if useIndexCache then .readCached
  else if usesCachedRepodata now mtime localRepodataTtl cacheControl offline isFileUrl then
    .readCached
  else .fetchRemote

/-! ## Package records, raw repodata entries and the in-memory indexes -/

/-- Modelled from the spec: the fields of models.records.PackageRecord,
which is not under src/, that the indexing and query code reads or writes:
the package name, version, filename, composed url, dependency list, the
advertised track features, and the legacy_bz2 carry-over fields. -/
structure PackageRecord where
  name : String
  version : String
  fn : String
  url : String
  depends : List String
  trackFeatures : List String
  legacyBz2Md5 : Option String := none
  legacyBz2Size : Option Nat := none
deriving DecidableEq, Repr

/-- One raw entry of the packages or packages.conda mapping of a repodata
document, with the fields _process_raw_repodata reads. -/
structure PackageInfo where
  name : String := ""
  version : String := ""
  depends : List String := []
  md5 : Option String := none
  size : Option Nat := none
  trackFeatures : List String := []
  recordVersion : Nat := 0
deriving DecidableEq, Repr

/-- Lookup in an association list modelling a Python dict. -/
def lookupAssoc {β : Type} (l : List (String × β)) (k : String) : Option β :=
  (l.find? fun kv => kv.1 = k).map (·.2)

/-- The parsed repodata JSON document: info.subdir, the repodata_version
field, and the two package mappings. -/
structure RepodataJson where
  infoSubdir : Option String := none
  repodataVersion : Nat := 0
  packages : List (String × PackageInfo) := []
  packagesConda : List (String × PackageInfo) := []

/-- The sidecar state dict handed to _process_raw_repodata (the
mod_etag_headers loaded from the .state.json file). -/
structure StateDict where
  etag : Option String := none
  mod : Option String := none
  cacheControl : Option String := none
  url : Option String := none
  repodataVersion : Option Nat := none

/-- Configuration and channel identity read by _process_raw_repodata. -/
structure ProcessCfg where
  channelSubdir : String
  channelUrl : String
  schannel : String := ""
  addPip : Bool := false
  useOnlyTarBz2 : Bool := false

/-- MAX_REPODATA_VERSION in subdir_data.py. -/
def MAX_REPODATA_VERSION : Nat := 1

/-- Python str.replace with fuel: replace every non-overlapping occurrence
of pat by rep, scanning left to right. Fuel at least the string length
makes the recursion structural. -/
def replaceAllAux (pat rep : List Char) : Nat → List Char → List Char
  | 0, s => s
  | _ + 1, [] => []
  | fuel + 1, c :: rest =>
    if pat ≠ [] ∧ pat.isPrefixOf (c :: rest) then
      rep ++ replaceAllAux pat rep fuel ((c :: rest).drop pat.length)
    else c :: replaceAllAux pat rep fuel rest

/-- Python s.replace(pat, rep) on strings. -/
def strReplaceAll (s pat rep : String) : String :=
  ⟨replaceAllAux pat.data rep.data s.data.length s.data⟩

/-- The key k[:-6] + ".tar.bz2" used to build use_these_legacy_keys: strip
the 6-character ".conda" extension and add the legacy one. -/
def condaStemKey (k : String) : String :=
  ⟨k.data.take (k.data.length - 6) ++ ".tar.bz2".data⟩

/-- The body of the entry loop of _process_raw_repodata: set fn and url,
carry legacy md5/size over from the str.replace counterpart when in the
conda group, and append "pip" to the depends of python 2.* and 3.*
packages when the policy is on. -/
def mkRecord (cfg : ProcessCfg) (legacyPackages : List (String × PackageInfo))
    (copyLegacyMd5 : Bool) (fn : String) (info : PackageInfo) : PackageRecord :=
  let counterpart := strReplaceAll fn ".conda" ".tar.bz2"
  let legacyEntry := if copyLegacyMd5 then lookupAssoc legacyPackages counterpart else none
  { name := info.name
    version := info.version
    fn := fn
    url := cfg.channelUrl ++ "/" ++ fn
    depends :=
      if cfg.addPip ∧ info.name = "python" ∧
          (info.version.startsWith "2." || info.version.startsWith "3.") then
        info.depends ++ ["pip"]
      else info.depends
    trackFeatures := info.trackFeatures
    legacyBz2Md5 := legacyEntry.bind (·.md5)
    legacyBz2Size := legacyEntry.bind (·.size) }

/-- The two-group entry traversal of _process_raw_repodata: the conda
group first (with legacy md5 carry-over), then the legacy entries whose
key is not the stem-parallel of a conda key; entries with record_version
above 1 are skipped. -/
def buildEntries (cfg : ProcessCfg) (legacyPackages condaPackages : List (String × PackageInfo)) :
    List PackageRecord :=
  let useTheseLegacy := legacyPackages.filter fun kv =>
    !(condaPackages.any fun ck => condaStemKey ck.1 = kv.1)
  (condaPackages.filterMap fun kv =>
    if kv.2.recordVersion > 1 then none
    else some (mkRecord cfg legacyPackages true kv.1 kv.2))
  ++ (useTheseLegacy.filterMap fun kv =>
    if kv.2.recordVersion > 1 then none
    else some (mkRecord cfg legacyPackages false kv.1 kv.2))

/-- The three in-memory indexes built by _process_raw_repodata. -/
structure BuiltIndex where
  packageRecords : List PackageRecord
  namesIndex : String → List PackageRecord
  trackFeaturesIndex : String → List PackageRecord

/-- The empty indexes (defaultdict(list) everywhere). -/
def emptyIndex : BuiltIndex := ⟨[], fun _ => [], fun _ => []⟩

/-- Append one record to _package_records, to _names_index under its name,
and to _track_features_index under each advertised feature. -/
def addRecord (st : BuiltIndex) (r : PackageRecord) : BuiltIndex :=
  { packageRecords := st.packageRecords ++ [r]
    namesIndex := fun n =>
      if n = r.name then st.namesIndex n ++ [r] else st.namesIndex n
    trackFeaturesIndex := fun f =>
      if f ∈ r.trackFeatures then st.trackFeaturesIndex f ++ [r]
      else st.trackFeaturesIndex f }

/-- Build all three indexes by walking the record sequence in order. -/
def buildIndex (l : List PackageRecord) : BuiltIndex := l.foldl addRecord emptyIndex

/-- The _internal_state result of _process_raw_repodata, restricted to the
fields the claims consult. -/
structure InternalState where
  index : BuiltIndex
  repodataVersion : Nat

/-- SubdirData._process_raw_repodata: check the subdir assertion, take
repodata_version from the state dict (state.get, as the source does; the
JSON field of the same name is not consulted), raise CondaUpgradeError
above MAX_REPODATA_VERSION, drop packages.conda entirely under
use_only_tar_bz2, and build the records and both indexes. -/
def process_raw_repodata (cfg : ProcessCfg) (repodata : RepodataJson)
    (state : StateDict) : Except String InternalState :=
  let subdir := match repodata.infoSubdir with
    | some s => if s = "" then cfg.channelSubdir else s
    | none => cfg.channelSubdir
  if subdir ≠ cfg.channelSubdir then Except.error "AssertionError"
  else
    let ver := state.repodataVersion.getD 0
    if ver > MAX_REPODATA_VERSION then Except.error "CondaUpgradeError"
    else
      let condaPackages := if cfg.useOnlyTarBz2 then [] else repodata.packagesConda
      Except.ok
        { index := buildIndex (buildEntries cfg repodata.packages condaPackages)
          repodataVersion := ver }

/-! ## Query engine, SubdirData.query -/

/-- The value of one exact match-spec component. -/
inductive MsValue
  | str (s : String)
  | strs (l : List String)
deriving DecidableEq, Repr

/-- Modelled from the spec: models.match_spec.MatchSpec, which is not under
src/, as the query code consumes it: a structured predicate over package
records whose exact-valued components (name, version constraint, build,
features, track_features) are looked up by field name with
get_exact_value, plus the opaque match predicate. -/
structure MatchSpecModel where
  components : List (String × MsValue)
  matchesRec : PackageRecord → Bool

/-- MatchSpec.get_exact_value: the component stored under the field name,
None when the spec has no component of that name. -/
def getExactValue (m : MatchSpecModel) (fieldName : String) : Option MsValue :=
  lookupAssoc m.components fieldName

/-- Python truthiness of a get_exact_value result: None, the empty string
and the empty tuple are falsy. -/
def truthy : Option MsValue → Bool
  | none => false
  | some (.str s) => !(s = "")
  | some (.strs l) => !l.isEmpty

/-- Python x or (): the tuple of strings a component holds, with falsy
values collapsing to the empty tuple. -/
def valueStrs : Option MsValue → List String
  | some (.strs l) => l
  | some (.str s) => if s = "" then [] else [s]
  | none => []

/-- SubdirData.query on a MatchSpec argument, faithful to the source: the
name branch iterates _names_index[name]; the track_features branch is
guarded by get_exact_value("track_features") but iterates the buckets of
get_exact_value("track"); otherwise the full record scan. -/
def queryMatchSpec (sd : BuiltIndex) (param : MatchSpecModel) : List PackageRecord :=
  if truthy (getExactValue param "name") then
    let packageName := match getExactValue param "name" with
      | some (.str s) => s
      | _ => ""
    (sd.namesIndex packageName).filter param.matchesRec
  else if truthy (getExactValue param "track_features") then
    let trackFeatures := valueStrs (getExactValue param "track")
    ((trackFeatures.map sd.trackFeaturesIndex).flatten).filter param.matchesRec
  else
    sd.packageRecords.filter param.matchesRec

/-! ## Pickled index sidecar, SubdirData._read_pickled -/

/-- The fingerprint fields of a pickled _internal_state, each optional
because dict.get returns None for a missing key. -/
structure PickledState where
  url : Option String := none
  schannel : Option String := none
  addPip : Option Bool := none
  mod : Option String := none
  etag : Option String := none
  pickleVersion : Option Nat := none
  fn : Option String := none
deriving DecidableEq, Repr

/-- The current values the sidecar fingerprint is compared against. -/
structure PickleCtx where
  urlWCredentials : String
  canonicalName : String
  addPipPolicy : Bool
  stateMod : Option String := none
  stateEtag : Option String := none
  repodataFn : String
deriving DecidableEq, Repr

/-- REPODATA_PICKLE_VERSION in subdir_data.py. -/
def REPODATA_PICKLE_VERSION : Nat := 28

/-- The conjunction of _pickle_valid_checks in _read_pickled. -/
def pickleValidChecks (p : PickledState) (ctx : PickleCtx) : Bool :=
  p.url = some ctx.urlWCredentials ∧
  p.schannel = some ctx.canonicalName ∧
  p.addPip = some ctx.addPipPolicy ∧
  p.mod = ctx.stateMod ∧
  p.etag = ctx.stateEtag ∧
  p.pickleVersion = some REPODATA_PICKLE_VERSION ∧
  p.fn = some ctx.repodataFn

/-- SubdirData._read_pickled: reject the sidecar when either file is
missing, when unpickling fails (loaded is none), or when any fingerprint
check fails; otherwise return the pickled state. -/
def readPickled (pickleIsFile jsonIsFile : Bool) (loaded : Option PickledState)
    (ctx : PickleCtx) : Option PickledState :=
  if !(pickleIsFile && jsonIsFile) then none
  else match loaded with
    | none => none
    | some p => if pickleValidChecks p ctx then some p else none

/-- The two sources _read_local_repodata can serve from. -/
inductive LocalRepodataSource
  | fromPickle (p : PickledState)
  | fromJson
deriving DecidableEq, Repr

/-- SubdirData._read_local_repodata: serve the pickled state when
_read_pickled accepts it, else fall back to re-parsing the cached JSON. -/
def readLocalRepodata (pickleIsFile jsonIsFile : Bool) (loaded : Option PickledState)
    (ctx : PickleCtx) : LocalRepodataSource :=
  match readPickled pickleIsFile jsonIsFile loaded ctx with
  | some p => .fromPickle p
  | none => .fromJson

/-! ## JLAP acquisition flow, jlapper.request_url_jlap_state

The network and filesystem stages are abstracted: the decoded patch list,
local nominal hash and footer hash of a pass arrive as a PassInput, the
blake2b digest of a full download arrives as digest, and success of
json.load on the cached file arrives as decodeOk.  What remains is the
Apply Patches section of the function, its in-place state mutation, its
rename-and-recurse recovery, and its return value. -/

/-- The two hash fields of RepodataState that request_url_jlap_state
mutates in place. -/
structure JlapFlowState where
  nominalHash : Option String := none
  onDiskHash : Option String := none
deriving DecidableEq, Repr

/-- Planner inputs of one pass: the patches decoded from the jlap buffer,
have = state[NOMINAL_HASH], and want = the latest hash of the footer. -/
structure PassInput where
  patches : List (Patch Nat)
  haveHash : String
  want : String
deriving DecidableEq, Repr

/-- How a call to request_url_jlap_state ends: a Python return carrying
the returned value (None when control falls off the end) next to the
final mutated state, or one of the two assert failures in the function. -/
inductive JlapOutcome
  | returns (value : Option JlapFlowState) (final : JlapFlowState)
  | assertRecursion
  | assertNominal
deriving DecidableEq, Repr

/-- Fixed surroundings of a call: the cache JSON path minus its ".json"
suffix, and the hash of the re-serialized patched document. -/
structure JlapEnv where
  jsonStem : String
  rewriteHash : String
deriving DecidableEq, Repr

/-- The Apply Patches section, jlapper.py lines 356-421: plan with
find_patches; an empty plan asserts the nominal hash already equals want;
a non-empty plan loads the cached JSON (decodeOk), applies, rewrites the
file and sets ON_DISK_HASH and NOMINAL_HASH; LookupError("patch not
found") or a decode error first hits the assert-not-full_download
recursion guard, then renames the JSON to its .json.old sibling and
re-runs via retry, returning whatever retry returns.  The second
component lists the rename targets performed. -/
def applySection (fullDownload : Bool) (env : JlapEnv) (st : JlapFlowState)
    (inp : PassInput) (decodeOk : Bool)
    (retry : Unit → JlapOutcome × List String) : JlapOutcome × List String :=
  match find_patches inp.patches inp.haveHash inp.want with
  | .ok plan =>
    if plan.isEmpty then
      if st.nominalHash = some inp.want then (.returns none st, [])
      else (.assertNominal, [])
    else
      if decodeOk then
        (.returns none { st with onDiskHash := some env.rewriteHash,
                                 nominalHash := some inp.want }, [])
      else
        if fullDownload then (.assertRecursion, [])
        else
          let r := retry ()
          (r.1, (env.jsonStem ++ ".json.old") :: r.2)
  | .error _ =>
    if fullDownload then (.assertRecursion, [])
    else
      let r := retry ()
      (r.1, (env.jsonStem ++ ".json.old") :: r.2)

/-- The zero-patch buffer [[-1, "", ""], [0, {latest: have}, ""], [1, "", ""]]
built on the full-download branch: no patches, want equal to have. -/
def zeroPatchInput (haveHash : String) : PassInput := ⟨[], haveHash, haveHash⟩

/-- The full_download=True branch on a 200 response: both state hashes
become the download digest and the synthetic zero-patch buffer feeds the
Apply Patches section; its retry continuation is unreachable because
fullDownload is true. -/
def requestFullDownload (env : JlapEnv) (digest : String) : JlapOutcome × List String :=
  applySection true env { nominalHash := some digest, onDiskHash := some digest }
    (zeroPatchInput digest) true fun _ => (.assertRecursion, [])

/-- jlapper.request_url_jlap_state entered with full_download=False on the
jlap branch: run the Apply Patches section on the fetched buffer; on
recovery it re-runs itself with full_download=True on the same mutable
state and returns the return value of that call. -/
def request_url_jlap_state (env : JlapEnv) (st : JlapFlowState) (inp : PassInput)
    (decodeOk : Bool) (digest : String) : JlapOutcome × List String :=
  applySection false env st inp decodeOk fun _ => requestFullDownload env digest

/-- The Python value a call returns, when it returns at all. -/
def returnedValue : JlapOutcome → Option JlapFlowState
  | .returns v _ => v
  | _ => none

/-- Bool-valued search for an occurrence of pat anywhere in s. -/
def occursIn (pat : List Char) : List Char → Bool
  | [] => false
  | c :: rest => pat.isPrefixOf (c :: rest) || occursIn pat rest

/-! ## Concrete instances used by counterexamples and witnesses -/

/-- A record advertising the track feature "mkl". -/
def c5record : PackageRecord :=
  { name := "a", version := "1", fn := "a-1-0.tar.bz2", url := "u", depends := [],
    trackFeatures := ["mkl"] }

/-- Indexes holding just that record. -/
def c5index : BuiltIndex := buildIndex [c5record]

/-- A match spec with the exact component track_features={"mkl"} whose
predicate accepts everything. -/
def c5param : MatchSpecModel :=
  { components := [("track_features", .strs ["mkl"])], matchesRec := fun _ => true }

/-- Channel configuration for the processing counterexamples. -/
def c6cfg : ProcessCfg := { channelSubdir := "linux-64", channelUrl := "https://repo/linux-64" }

/-- A legacy .tar.bz2 entry carrying an md5 and a size. -/
def c6legacyInfo : PackageInfo :=
  { name := "a.conda", version := "1", md5 := some "legacymd5", size := some 7 }

/-- The packages mapping: one legacy entry whose package name contains
".conda", so the filename holds ".conda" twice. -/
def c6legacy : List (String × PackageInfo) := [("a.conda-1-0.tar.bz2", c6legacyInfo)]

/-- The packages.conda mapping with the parallel .conda entry. -/
def c6conda : List (String × PackageInfo) :=
  [("a.conda-1-0.conda", { name := "a.conda", version := "1" })]

/-- A repodata document combining c6legacy and c6conda. -/
def c6repodata : RepodataJson :=
  { infoSubdir := some "linux-64", packages := c6legacy, packagesConda := c6conda }

/-- The internal state _process_raw_repodata builds from c6repodata. -/
def c6state : InternalState :=
  { index := buildIndex (buildEntries c6cfg c6legacy c6conda), repodataVersion := 0 }

/-- A repodata document whose own repodata_version field is 2, above the
supported maximum. -/
def c7repodata : RepodataJson :=
  { infoSubdir := some "linux-64", repodataVersion := 2,
    packages := [("a-1-0.tar.bz2", { name := "a", version := "1" })] }

/-- A small repodata document for exercising the index construction. -/
def c10repodata : RepodataJson :=
  { infoSubdir := some "linux-64",
    packages := [("a-1-0.tar.bz2", { name := "a", version := "1", trackFeatures := ["mkl"] }),
                 ("b-1-0.tar.bz2", { name := "b", version := "1" })] }

/-- The internal state _process_raw_repodata builds from c10repodata. -/
def c10state : InternalState :=
  { index := buildIndex (buildEntries c6cfg c10repodata.packages c10repodata.packagesConda)
    repodataVersion := 0 }

/-- A pickled sidecar whose fingerprint matches c8ctx. -/
def c8pickled : PickledState :=
  { url := some "https://repo/linux-64", schannel := some "defaults",
    addPip := some true, mod := some "m", etag := some "e",
    pickleVersion := some REPODATA_PICKLE_VERSION, fn := some "repodata.json" }

/-- The current fingerprint values matching c8pickled. -/
def c8ctx : PickleCtx :=
  { urlWCredentials := "https://repo/linux-64", canonicalName := "defaults",
    addPipPolicy := true, stateMod := some "m", stateEtag := some "e",
    repodataFn := "repodata.json" }

/-! ## Helper lemmas -/

theorem collectPatches_chain {α : Type} (l : List (Patch α)) (haveHash want : String) :
    isChain (collectPatches l haveHash want).1 want (collectPatches l haveHash want).2 := by
  induction l generalizing want with
  | nil => simp [collectPatches, isChain]
  | cons p rest ih =>
    by_cases h1 : haveHash = want
    · simp [collectPatches, h1, isChain]
    · by_cases h2 : p.toHash = want
      · simpa [collectPatches, h1, h2, isChain] using ih p.fromHash
      · simpa [collectPatches, h1, h2] using ih want

theorem isChain_apply {α Doc : Type} (applyOne : Doc → Patch α → Doc)
    (hashDoc : Doc → String)
    (hcorrect : ∀ d p, hashDoc d = p.fromHash → hashDoc (applyOne d p) = p.toHash)
    (plan : List (Patch α)) (want haveHash : String) (hchain : isChain plan want haveHash)
    (d : Doc) (hd : hashDoc d = haveHash) :
    hashDoc (apply_patches applyOne d plan) = want := by
  induction plan generalizing want with
  | nil =>
    have hwh : want = haveHash := hchain
    simpa [apply_patches, hwh] using hd
  | cons p rest ih =>
    obtain ⟨hto, hrest⟩ := hchain
    have hmid : hashDoc (apply_patches applyOne d rest) = p.fromHash := ih p.fromHash hrest
    have hstep : apply_patches applyOne d (p :: rest) =
        applyOne (apply_patches applyOne d rest) p := by
      simp [apply_patches, List.foldl_append]
    rw [hstep, hcorrect _ _ hmid, hto]

theorem b32hexencode5_length (l : List Nat) (h : l.length = 5) :
    (b32hexencode5 l).length = 8 :=
  match l, h with
  | [_, _, _, _, _], _ => by simp [b32hexencode5]

/-! ## C1: patch planning and application converge or fail explicitly -/

/-- C1.  jlapper.find_patches walks the decoded patch list in reverse,
collecting every patch whose to-hash is the currently desired hash and
updating the desired hash to the from-hash of that patch, and stops once the
desired hash equals have; it raises LookupError("patch not found") exactly
when the traversal ends with a desired hash different from have, and any
plan it does return is a hash chain from have to want, so that applying it
(with a patch application that respects the advertised hashes) to any
document hashing to have yields a document hashing to want. -/
theorem find_patches_correct {α Doc : Type} (applyOne : Doc → Patch α → Doc)
    (hashDoc : Doc → String) (patches : List (Patch α)) (haveHash want : String)
    (hcorrect : ∀ d p, hashDoc d = p.fromHash → hashDoc (applyOne d p) = p.toHash) :
    (∀ e, find_patches patches haveHash want = Except.error e → e = "patch not found") ∧
    (find_patches patches haveHash want = Except.error "patch not found" ↔
      (collectPatches patches.reverse haveHash want).2 ≠ haveHash) ∧
    (∀ plan, find_patches patches haveHash want = Except.ok plan →
      isChain plan want haveHash ∧
      ∀ d, hashDoc d = haveHash → hashDoc (apply_patches applyOne d plan) = want) := by
  by_cases h : haveHash = (collectPatches patches.reverse haveHash want).2
  · have hfp : find_patches patches haveHash want =
        Except.ok (collectPatches patches.reverse haveHash want).1 := by
      simp [find_patches, ← h]
    refine ⟨?_, ?_, ?_⟩
    · intro e he
      rw [hfp] at he
      exact absurd he (by simp)
    · rw [hfp]
      constructor
      · intro he
        exact absurd he (by simp)
      · intro hne
        exact absurd h.symm hne
    · intro plan hplan
      rw [hfp] at hplan
      have hchain := collectPatches_chain patches.reverse haveHash want
      obtain rfl : (collectPatches patches.reverse haveHash want).1 = plan :=
        Except.ok.inj hplan
      rw [← h] at hchain
      exact ⟨hchain, fun d hd => isChain_apply applyOne hashDoc hcorrect _ _ _ hchain d hd⟩
  · have hfp : find_patches patches haveHash want = Except.error "patch not found" := by
      simp [find_patches, h]
    refine ⟨?_, ?_, ?_⟩
    · intro e he
      rw [hfp] at he
      exact (Except.error.inj he).symm
    · rw [hfp]
      exact ⟨fun _ => fun hc => h hc.symm, fun _ => rfl⟩
    · intro plan hplan
      rw [hfp] at hplan
      exact absurd hplan (by simp)

/-- Witness for C1 at a one-patch list: the planner returns the single
patch H0 to H1 and applying it to a document hashing to H0 produces one
hashing to H1 (documents are modelled by their hashes, so hashDoc = id). -/
theorem find_patches_correct_witness :
    id (apply_patches (fun (_ : String) (p : Patch Nat) => p.toHash) "H0"
        [⟨"H0", "H1", 0⟩]) = "H1" :=
  ((find_patches_correct (fun _ p => p.toHash) id [⟨"H0", "H1", 0⟩] "H0" "H1"
      (fun _ _ _ => rfl)).2.2 [⟨"H0", "H1", 0⟩] rfl).2 "H0" rfl

/-! ## C2: cache key derivation -/

/-- C2.  subdir_data.cache_fn_url is a pure function of the slash-padded
url and the non-default filename: a url gains nothing from an added
trailing slash, and the key is eight base32-hex characters followed by
".json" (13 characters in all) whenever sha256 yields its 32-byte digest. -/
theorem cache_fn_url_props (sha256 : List Char → List Nat) (url repodata_fn : List Char)
    (hlen : ∀ s, (sha256 s).length = 32) (hslash : url.getLast? ≠ some '/') :
    cache_fn_url sha256 (url ++ ['/']) repodata_fn = cache_fn_url sha256 url repodata_fn ∧
    (cache_fn_url sha256 url repodata_fn).length = 13 ∧
    (cache_fn_url sha256 url repodata_fn).drop 8 = ".json".data := by
  have hpad : (url ++ ['/']).getLast? = some '/' := by
    simp [List.getLast?_append]
  have hkeylen : ∀ s, (b32hexencode5 ((sha256 s).take 5) ++ ".json".data).length = 13 := by
    intro s
    rw [List.length_append, b32hexencode5_length _ (by simp [hlen])]
    rfl
  have hkeydrop : ∀ s,
      (b32hexencode5 ((sha256 s).take 5) ++ ".json".data).drop 8 = ".json".data := by
    intro s
    have h8 := b32hexencode5_length ((sha256 s).take 5) (by simp [hlen])
    rw [← h8, List.drop_left]
  refine ⟨?_, ?_, ?_⟩
  · simp [cache_fn_url, hpad, hslash]
  · exact hkeylen _
  · exact hkeydrop _

/-- Witness for C2 at a concrete url and the default filename, with a
dummy 32-byte digest function. -/
theorem cache_fn_url_props_witness :
    cache_fn_url (fun _ => List.range 32) ("https://repo/linux-64".data ++ ['/'])
        REPODATA_FN =
      cache_fn_url (fun _ => List.range 32) "https://repo/linux-64".data REPODATA_FN ∧
    (cache_fn_url (fun _ => List.range 32) "https://repo/linux-64".data REPODATA_FN).length
      = 13 :=
  have h := cache_fn_url_props (fun _ => List.range 32) "https://repo/linux-64".data
    REPODATA_FN (fun _ => by simp) (by decide)
  ⟨h.1, h.2.1⟩

/-! ## C3: staleness test and TTL ladder -/

/-- Counterexample to C3 as stated.  With local_repodata_ttl = 100 and
now exactly ttl seconds past the recorded time of the cached file, the code
computes timeout = 0 and refuses the cache (treats it as stale), yet
now - refresh does not exceed the ttl, so the claim calls it fresh. -/
theorem stale_boundary_counterexample :
    usesCachedRepodata 100 0 100 [] false false = false ∧ ¬ ((100 : Int) - 0 > 100) := by
  exact ⟨by decide, by decide⟩

/-- C3 amended.  The cache is used (and _load returns the cached indexes
without fetching) exactly when now - refresh_time is strictly below the
ttl from the configured ladder, or offline mode is on, and the channel is
not file://; so the cache is stale as soon as now - refresh_time is at
least the ttl, not only when it exceeds it. -/
theorem load_ttl_ladder (now mtime localRepodataTtl : Int) (cacheControl : List Char)
    (offline isFileUrl : Bool) :
    (usesCachedRepodata now mtime localRepodataTtl cacheControl offline isFileUrl = true ↔
      ((now - mtime <
          (if localRepodataTtl > 1 then localRepodataTtl
           else if localRepodataTtl = 1 then (get_cache_control_max_age cacheControl : Int)
           else 0)) ∨ offline = true) ∧ isFileUrl = false) ∧
    (loadPath true false now mtime localRepodataTtl cacheControl offline isFileUrl =
        LoadPath.readCached ↔
      usesCachedRepodata now mtime localRepodataTtl cacheControl offline isFileUrl = true) := by
  constructor
  · simp only [usesCachedRepodata, loadMaxAge, Bool.and_eq_true, Bool.or_eq_true,
      decide_eq_true_eq, Bool.not_eq_true']
    constructor
    · rintro ⟨h1 | h1, h2⟩
      · exact ⟨Or.inl (by omega), h2⟩
      · exact ⟨Or.inr h1, h2⟩
    · rintro ⟨h1 | h1, h2⟩
      · exact ⟨Or.inl (by omega), h2⟩
      · exact ⟨Or.inr h1, h2⟩
  · simp only [loadPath, Bool.not_true, Bool.false_eq_true, if_false, if_true]
    by_cases h : usesCachedRepodata now mtime localRepodataTtl cacheControl offline isFileUrl
    · simp [h]
    · simp [h]

/-! ## C5: track-features query branch -/

/-- C5 is refuted by the code: the branch is guarded by the exact value of
"track_features" but iterates the buckets of the exact value of "track",
a field no match spec has, so a spec restricting track_features to "mkl"
yields nothing even though the index holds a matching record advertising
"mkl" and the predicate accepts it. -/
theorem query_track_features_yields_nothing :
    queryMatchSpec c5index c5param = [] ∧
    c5index.trackFeaturesIndex "mkl" = [c5record] ∧
    c5param.matchesRec c5record = true ∧
    truthy (getExactValue c5param "track_features") = true ∧
    getExactValue c5param "track" = none := by
  refine ⟨by decide, by decide, rfl, by decide, by decide⟩

/-! ## C7: unsupported repodata_version -/

/-- C7 is refuted by the code: _process_raw_repodata takes
repodata_version from the sidecar state dict (state.get), not from the
repodata document, so a document whose own repodata_version field is 2
is processed without any CondaUpgradeError and its records are indexed
and served. -/
theorem repodata_version_check_ignores_json :
    c7repodata.repodataVersion > MAX_REPODATA_VERSION ∧
    ∃ st, process_raw_repodata c6cfg c7repodata {} = Except.ok st ∧
      st.repodataVersion = 0 ∧ st.index.packageRecords ≠ [] := by
  refine ⟨by decide, ⟨_, rfl, rfl, by decide⟩⟩

/-! ## C8: pickled sidecar fingerprint -/

/-- C8.  _read_pickled accepts the sidecar exactly when both files exist,
unpickling succeeded, and every fingerprint field (url with credentials,
canonical channel name, pip policy, _mod, _etag, pickle schema version,
repodata filename) equals the current value; and _read_local_repodata
falls back to re-parsing the cached JSON exactly when the sidecar is
rejected. -/
theorem read_pickled_fingerprint (pickleIsFile jsonIsFile : Bool)
    (loaded : Option PickledState) (ctx : PickleCtx) (p : PickledState) :
    (readPickled pickleIsFile jsonIsFile loaded ctx = some p ↔
      pickleIsFile = true ∧ jsonIsFile = true ∧ loaded = some p ∧
      p.url = some ctx.urlWCredentials ∧ p.schannel = some ctx.canonicalName ∧
      p.addPip = some ctx.addPipPolicy ∧ p.mod = ctx.stateMod ∧ p.etag = ctx.stateEtag ∧
      p.pickleVersion = some REPODATA_PICKLE_VERSION ∧ p.fn = some ctx.repodataFn) ∧
    (readLocalRepodata pickleIsFile jsonIsFile loaded ctx = LocalRepodataSource.fromJson ↔
      readPickled pickleIsFile jsonIsFile loaded ctx = none) := by
  constructor
  · cases pickleIsFile <;> cases jsonIsFile <;> cases loaded <;>
      simp [readPickled, pickleValidChecks]
    constructor
    · rintro ⟨hc, rfl⟩
      exact ⟨rfl, hc⟩
    · rintro ⟨rfl, hc⟩
      exact ⟨hc, rfl⟩
  · rw [readLocalRepodata]
    cases hr : readPickled pickleIsFile jsonIsFile loaded ctx <;> simp

/-! ## C10: index-building consistency -/

theorem foldl_addRecord_records (l : List PackageRecord) (b : BuiltIndex) :
    (l.foldl addRecord b).packageRecords = b.packageRecords ++ l := by
  induction l generalizing b with
  | nil => simp
  | cons r rest ih =>
    rw [List.foldl_cons, ih]
    simp [addRecord]

theorem foldl_addRecord_names (l : List PackageRecord) (b : BuiltIndex)
    (hb : ∀ n, b.namesIndex n = b.packageRecords.filter fun r => r.name = n) :
    ∀ n, (l.foldl addRecord b).namesIndex n =
      (l.foldl addRecord b).packageRecords.filter fun r => r.name = n := by
  induction l generalizing b with
  | nil => exact hb
  | cons r rest ih =>
    refine ih (addRecord b r) ?_
    intro n
    simp only [addRecord]
    by_cases h : n = r.name
    · rw [if_pos h, hb n, List.filter_append]
      simp [h]
    · rw [if_neg h, hb n, List.filter_append]
      have : ¬ (r.name = n) := fun hc => h hc.symm
      simp [this]

theorem foldl_addRecord_features (l : List PackageRecord) (b : BuiltIndex)
    (hb : ∀ f, b.trackFeaturesIndex f = b.packageRecords.filter fun r => f ∈ r.trackFeatures) :
    ∀ f, (l.foldl addRecord b).trackFeaturesIndex f =
      (l.foldl addRecord b).packageRecords.filter fun r => f ∈ r.trackFeatures := by
  induction l generalizing b with
  | nil => exact hb
  | cons r rest ih =>
    refine ih (addRecord b r) ?_
    intro f
    simp only [addRecord]
    by_cases h : f ∈ r.trackFeatures
    · rw [if_pos h, hb f, List.filter_append]
      simp [h]
    · rw [if_neg h, hb f, List.filter_append]
      simp [h]

/-- C10.  After a successful _process_raw_repodata, the record sequence is
exactly the traversal of the surviving entries (each constructed record is
appended once, in insertion order), the name buckets are exactly the
records bearing the name of the bucket, and the track-feature buckets are
exactly the records advertising the feature of the bucket, each in insertion
order. -/
theorem index_buckets_consistent (cfg : ProcessCfg) (repodata : RepodataJson)
    (state : StateDict) (st : InternalState)
    (h : process_raw_repodata cfg repodata state = Except.ok st) :
    (∀ n, st.index.namesIndex n = st.index.packageRecords.filter fun r => r.name = n) ∧
    (∀ f, st.index.trackFeaturesIndex f =
      st.index.packageRecords.filter fun r => f ∈ r.trackFeatures) ∧
    st.index.packageRecords = buildEntries cfg repodata.packages
      (if cfg.useOnlyTarBz2 then [] else repodata.packagesConda) := by
  have hst : st.index = buildIndex (buildEntries cfg repodata.packages
      (if cfg.useOnlyTarBz2 then [] else repodata.packagesConda)) := by
    simp only [process_raw_repodata] at h
    split at h
    · cases h
    · split at h
      · cases h
      · cases h
        rfl
  rw [hst]
  refine ⟨?_, ?_, ?_⟩
  · exact foldl_addRecord_names _ emptyIndex (fun n => rfl)
  · exact foldl_addRecord_features _ emptyIndex (fun f => rfl)
  · simpa using foldl_addRecord_records _ emptyIndex

/-- Witness for C10 on a concrete two-package document. -/
theorem index_buckets_consistent_witness :
    c10state.index.namesIndex "a" =
      c10state.index.packageRecords.filter (fun r => r.name = "a") ∧
    c10state.index.trackFeaturesIndex "mkl" =
      c10state.index.packageRecords.filter (fun r => "mkl" ∈ r.trackFeatures) ∧
    (c10state.index.packageRecords.map (·.name)) = ["a", "b"] := by
  have h := index_buckets_consistent c6cfg c10repodata {} c10state rfl
  exact ⟨h.1 "a", h.2.1 "mkl", by decide⟩

/-! ## C6: package-set deduplication -/

theorem replaceAllAux_nil (pat rep : List Char) (fuel : Nat) :
    replaceAllAux pat rep fuel [] = [] := by
  cases fuel <;> rfl

theorem replaceAllAux_append_pat (pat rep : List Char) (hne : pat ≠ []) (stem : List Char)
    (hno : ∀ i, i < stem.length → ¬ pat.isPrefixOf ((stem ++ pat).drop i))
    (fuel : Nat) (hfuel : stem.length < fuel) :
    replaceAllAux pat rep fuel (stem ++ pat) = stem ++ rep := by
  induction stem generalizing fuel with
  | nil =>
    cases fuel with
    | zero => omega
    | succ f =>
      cases hp : pat with
      | nil => exact absurd hp hne
      | cons c cs =>
        subst hp
        simp only [List.nil_append, replaceAllAux]
        rw [if_pos ⟨hne, List.isPrefixOf_iff_prefix.mpr (List.prefix_refl _)⟩]
        simp [replaceAllAux_nil]
  | cons c stem2 ih =>
    cases fuel with
    | zero => omega
    | succ f =>
      have hcons : (c :: stem2) ++ pat = c :: (stem2 ++ pat) := rfl
      rw [hcons]
      have hnotHere : ¬ (pat ≠ [] ∧ pat.isPrefixOf (c :: (stem2 ++ pat))) := by
        rintro ⟨-, hpre⟩
        exact hno 0 (by simp) (by simpa using hpre)
      cases hs : stem2 ++ pat with
      | nil =>
        rcases List.append_eq_nil.mp hs with ⟨-, hpat⟩
        exact absurd hpat hne
      | cons d ds =>
        rw [← hs]
        simp only [replaceAllAux]
        rw [hs, ← hs, if_neg hnotHere]
        have hrec := ih (fun i hi => by
            have := hno (i + 1) (by simp; omega)
            simpa using this)
          f (by simp at hfuel; omega)
        rw [hrec]
        rfl

/-- Carrying str.replace to the String wrappers: when the pattern never
matches before the final extension, replacing in stem ++ pat rewrites only
the extension, and this agrees with the stem-based key k[:-6]+".tar.bz2". -/
theorem strReplaceAll_extension (stem : String)
    (hno : ∀ i, i < stem.data.length →
      ¬ ".conda".data.isPrefixOf ((stem.data ++ ".conda".data).drop i)) :
    strReplaceAll (stem ++ ".conda") ".conda" ".tar.bz2" = stem ++ ".tar.bz2" ∧
    condaStemKey (stem ++ ".conda") = stem ++ ".tar.bz2" := by
  have hdata : (stem ++ ".conda").data = stem.data ++ ".conda".data := by
    simp [String.data_append]
  have hdata2 : (stem ++ ".tar.bz2").data = stem.data ++ ".tar.bz2".data := by
    simp [String.data_append]
  constructor
  · apply String.ext
    rw [strReplaceAll]
    show replaceAllAux _ _ _ _ = _
    rw [hdata, hdata2]
    refine replaceAllAux_append_pat _ _ (by decide) _ hno _ ?_
    simp
  · apply String.ext
    rw [condaStemKey]
    show _ ++ _ = _
    rw [hdata, hdata2]
    have hlen : (stem.data ++ ".conda".data).length - 6 = stem.data.length := by
      simp
    rw [hlen]
    rw [List.take_left]

/-- Counterexample to C6 as stated: with the package name "a.conda" the
filename "a.conda-1-0.conda" holds ".conda" twice, so the same-stem legacy
entry "a.conda-1-0.tar.bz2" is suppressed, yet its md5 and size are not
carried over, because the carry-over looks up
fn.replace(".conda", ".tar.bz2") = "a.tar.bz2-1-0.tar.bz2" instead. -/
theorem dedup_carry_counterexample :
    (buildEntries c6cfg c6legacy c6conda).map
        (fun r => (r.fn, r.legacyBz2Md5, r.legacyBz2Size)) =
      [("a.conda-1-0.conda", none, none)] ∧
    c6legacyInfo.md5 = some "legacymd5" ∧ c6legacyInfo.size = some 7 ∧
    condaStemKey "a.conda-1-0.conda" = "a.conda-1-0.tar.bz2" ∧
    strReplaceAll "a.conda-1-0.conda" ".conda" ".tar.bz2" = "a.tar.bz2-1-0.tar.bz2" := by
  refine ⟨by decide, rfl, rfl, by decide, by decide⟩

theorem suppressionFilterEq (legacy conda : List (String × PackageInfo)) :
    (legacy.filter fun kv => !(conda.any fun ck => condaStemKey ck.1 = kv.1)) =
    (legacy.filter fun kv => !(decide (kv.1 ∈ conda.map fun ck => condaStemKey ck.1))) := by
  apply List.filter_congr
  intro kv _
  congr 1
  rw [Bool.eq_iff_iff]
  simp [List.any_eq_true, List.mem_map]

/-- C6 amended.  Under tar.bz2-only mode packages.conda is ignored
entirely; otherwise the record sequence consists of the .conda entries
followed by the legacy entries whose key is not the stem-parallel
k[:-6]+".tar.bz2" of any .conda key, and for each .conda record the
legacy_bz2_md5 / legacy_bz2_size come from the legacy entry keyed by
fn.replace(".conda", ".tar.bz2") with every occurrence replaced — which
coincides with the same-stem entry whenever ".conda" occurs in the
filename only as its extension. -/
theorem dedup_amended (cfg : ProcessCfg) (repodata : RepodataJson) (state : StateDict)
    (st : InternalState) (conda2 : List (String × PackageInfo)) :
    (cfg.useOnlyTarBz2 = true →
      process_raw_repodata cfg repodata state =
        process_raw_repodata cfg { repodata with packagesConda := conda2 } state) ∧
    (cfg.useOnlyTarBz2 = false → process_raw_repodata cfg repodata state = Except.ok st →
      st.index.packageRecords =
        (repodata.packagesConda.filterMap fun kv =>
          if kv.2.recordVersion > 1 then none
          else some (mkRecord cfg repodata.packages true kv.1 kv.2)) ++
        ((repodata.packages.filter fun kv =>
            !(decide (kv.1 ∈ repodata.packagesConda.map fun ck => condaStemKey ck.1))).filterMap
          fun kv => if kv.2.recordVersion > 1 then none
            else some (mkRecord cfg repodata.packages false kv.1 kv.2))) ∧
    (∀ fn info, (mkRecord cfg repodata.packages true fn info).legacyBz2Md5 =
        (lookupAssoc repodata.packages (strReplaceAll fn ".conda" ".tar.bz2")).bind (·.md5) ∧
      (mkRecord cfg repodata.packages true fn info).legacyBz2Size =
        (lookupAssoc repodata.packages (strReplaceAll fn ".conda" ".tar.bz2")).bind (·.size)) ∧
    (∀ stem : String, (∀ i, i < stem.data.length →
        ¬ ".conda".data.isPrefixOf ((stem.data ++ ".conda".data).drop i)) →
      strReplaceAll (stem ++ ".conda") ".conda" ".tar.bz2" = condaStemKey (stem ++ ".conda")) := by
  refine ⟨?_, ?_, fun fn info => ⟨rfl, rfl⟩, fun stem hno => ?_⟩
  · intro honly
    simp [process_raw_repodata, honly]
  · intro hfull h
    have hst : st.index = buildIndex (buildEntries cfg repodata.packages
        repodata.packagesConda) := by
      simp only [process_raw_repodata, hfull] at h
      split at h
      · cases h
      · split at h
        · cases h
        · cases h
          rfl
    rw [hst]
    have hrecs := foldl_addRecord_records
      (buildEntries cfg repodata.packages repodata.packagesConda) emptyIndex
    rw [show buildIndex (buildEntries cfg repodata.packages repodata.packagesConda) =
        (buildEntries cfg repodata.packages repodata.packagesConda).foldl addRecord
          emptyIndex from rfl] at hst ⊢
    rw [hrecs]
    show [] ++ _ = _
    rw [List.nil_append, buildEntries, suppressionFilterEq]
  · rw [(strReplaceAll_extension stem hno).1, (strReplaceAll_extension stem hno).2]

/-- Witness for C6 amended at the concrete document c6repodata: the record
sequence is the .conda entry alone, the same-stem legacy entry being
suppressed. -/
theorem dedup_amended_witness :
    c6state.index.packageRecords =
      (c6conda.filterMap fun kv =>
        if kv.2.recordVersion > 1 then none
        else some (mkRecord c6cfg c6legacy true kv.1 kv.2)) ++
      ((c6legacy.filter fun kv =>
          !(decide (kv.1 ∈ c6conda.map fun ck => condaStemKey ck.1))).filterMap
        fun kv => if kv.2.recordVersion > 1 then none
          else some (mkRecord c6cfg c6legacy false kv.1 kv.2)) :=
  (dedup_amended c6cfg c6repodata {} c6state []).2.1 rfl rfl

/-! ## C4: patch-not-found recovery runs a full download exactly once -/

/-- C4.  When planning fails on the jlap pass, request_url_jlap_state
renames the cached JSON to its .json.old sibling (exactly one rename) and
re-runs itself once with full_download=True, which rebuilds the state from
the full download and succeeds on the synthetic zero-patch buffer; and on
any full-download pass a planner failure trips the recursion guard
(assert not full_download), so a second retry is impossible. -/
theorem jlap_patch_not_found_recovery (env : JlapEnv) (st : JlapFlowState)
    (inp : PassInput) (decodeOk : Bool) (digest : String) (e : String)
    (hfail : find_patches inp.patches inp.haveHash inp.want = Except.error e) :
    request_url_jlap_state env st inp decodeOk digest =
      (JlapOutcome.returns none
        { nominalHash := some digest, onDiskHash := some digest },
        [env.jsonStem ++ ".json.old"]) ∧
    (∀ (st2 : JlapFlowState) (inp2 : PassInput) (d2 : Bool)
        (retry2 : Unit → JlapOutcome × List String) (e2 : String),
      find_patches inp2.patches inp2.haveHash inp2.want = Except.error e2 →
      applySection true env st2 inp2 d2 retry2 = (JlapOutcome.assertRecursion, [])) := by
  constructor
  · rw [request_url_jlap_state, applySection]
    rw [hfail]
    simp only [Bool.false_eq_true, if_false]
    rw [requestFullDownload, applySection]
    have hzero : find_patches (zeroPatchInput digest).patches (zeroPatchInput digest).haveHash
        (zeroPatchInput digest).want = Except.ok [] := by
      simp [zeroPatchInput, find_patches, collectPatches]
    rw [hzero]
    simp [zeroPatchInput]
  · intro st2 inp2 d2 retry2 e2 hfail2
    rw [applySection, hfail2]
    rfl

/-- Witness for C4: a patch list in which the local hash h is unreachable
makes the first pass fail, rename once, and succeed on the full pass. -/
theorem jlap_patch_not_found_recovery_witness :
    request_url_jlap_state ⟨"cache/k7", "rw"⟩ ⟨some "h", some "h"⟩
        ⟨[⟨"x", "y", 0⟩], "h", "y"⟩ true "d" =
      (JlapOutcome.returns none { nominalHash := some "d", onDiskHash := some "d" },
        ["cache/k7" ++ ".json.old"]) :=
  (jlap_patch_not_found_recovery ⟨"cache/k7", "rw"⟩ ⟨some "h", some "h"⟩
    ⟨[⟨"x", "y", 0⟩], "h", "y"⟩ true "d" "patch not found" rfl).1

/-! ## C9: the success branch loses its return value -/

/-- C9 is refuted by the code: every path of request_url_jlap_state
returns the Python value None, including the success branch that applies
a non-empty plan and writes the patched JSON (it mutates the state hashes
in place and then falls off the end of the function instead of returning
the freshly-built state). -/
theorem request_url_jlap_state_returns_none (env : JlapEnv) (st : JlapFlowState)
    (inp : PassInput) (decodeOk : Bool) (digest : String) :
    returnedValue (request_url_jlap_state env st inp decodeOk digest).1 = none ∧
    (∀ plan, find_patches inp.patches inp.haveHash inp.want = Except.ok plan → plan ≠ [] →
      decodeOk = true →
      (request_url_jlap_state env st inp decodeOk digest).1 =
        JlapOutcome.returns none
          { st with onDiskHash := some env.rewriteHash, nominalHash := some inp.want }) := by
  constructor
  · rw [request_url_jlap_state, applySection]
    cases hfp : find_patches inp.patches inp.haveHash inp.want with
    | ok plan =>
      by_cases hemp : plan.isEmpty
      · by_cases hnom : st.nominalHash = some inp.want <;>
          simp [hemp, hnom, returnedValue]
      · by_cases hdec : decodeOk = true
        · simp [hemp, hdec, returnedValue]
        · simp [hemp, hdec, requestFullDownload, applySection, zeroPatchInput,
            find_patches, collectPatches, returnedValue]
    | error e =>
      simp [requestFullDownload, applySection, zeroPatchInput,
        find_patches, collectPatches, returnedValue]
  · intro plan hplan hne hdec
    rw [request_url_jlap_state, applySection, hplan]
    simp [List.isEmpty_iff, hne, hdec]

/-- Witness for C9: a one-patch plan from H0 to H1 is applied and written
out, the state hashes are updated in place, and the call still returns
None. -/
theorem request_url_jlap_state_returns_none_witness :
    returnedValue (request_url_jlap_state ⟨"cache/k7", "rw"⟩ ⟨some "H0", some "H0"⟩
        ⟨[⟨"H0", "H1", 0⟩], "H0", "H1"⟩ true "d").1 = none ∧
    (request_url_jlap_state ⟨"cache/k7", "rw"⟩ ⟨some "H0", some "H0"⟩
        ⟨[⟨"H0", "H1", 0⟩], "H0", "H1"⟩ true "d").1 =
      JlapOutcome.returns none { nominalHash := some "H1", onDiskHash := some "rw" } :=
  have h := request_url_jlap_state_returns_none ⟨"cache/k7", "rw"⟩ ⟨some "H0", some "H0"⟩
    ⟨[⟨"H0", "H1", 0⟩], "H0", "H1"⟩ true "d"
  ⟨h.1, h.2 [⟨"H0", "H1", 0⟩] rfl (by decide) rfl⟩

end Conda
